import Mathlib

/-!
Verification development for the ryujin invariant-domain-preserving
explicit time-stepping core.

The Euler approximate Riemann wave-speed estimator is embedded from
src/source/euler/riemann_solver.template.h, machine floating-point
numbers being modelled by real numbers.  The helper functions
positive_part and negative_part (simd.h) and the cached constants
gamma_inverse and gamma_minus_one_inverse of the hyperbolic system are
modelled by their defining formulas.
-/

set_option maxHeartbeats 1000000

namespace Ryujin

noncomputable section

namespace Euler

/-- One-dimensional primitive Riemann data along a unit direction:
density, normal velocity, pressure, and sound speed.  This is the
`primitive_type` of `RiemannSolver`. -/
structure Primitive where
  rho : ℝ
  u : ℝ
  p : ℝ
  a : ℝ

/-- Admissibility of primitive Riemann data: positive density and
pressure (the invariant domain) together with the positive sound speed
derived from them. -/
def Primitive.admissible (s : Primitive) : Prop :=
  0 < s.rho ∧ 0 < s.p ∧ 0 < s.a

/-- Modelled from the spec: the positive part helper of simd.h
(not under src/), `(|x| + x) / 2`. -/
def positive_part (x : ℝ) : ℝ := (|x| + x) / 2

/-- Modelled from the spec: the negative part helper of simd.h
(not under src/), `(|x| - x) / 2`. -/
def negative_part (x : ℝ) : ℝ := (|x| - x) / 2

/-- The specialised evaluation of the monotone auxiliary function phi at
`p_max = max (p_i, p_j)`; `RiemannSolver::phi_of_p_max`. -/
def phi_of_p_max (γ : ℝ) (riemann_data_i riemann_data_j : Primitive) : ℝ :=
  let p_max := max riemann_data_i.p riemann_data_j.p
  let radicand_inverse_i := (1 / 2) * riemann_data_i.rho *
    ((γ + 1) * p_max + (γ - 1) * riemann_data_i.p)
  let value_i := (p_max - riemann_data_i.p) / Real.sqrt radicand_inverse_i
  let radicand_inverse_j := (1 / 2) * riemann_data_j.rho *
    ((γ + 1) * p_max + (γ - 1) * riemann_data_j.p)
  let value_j := (p_max - riemann_data_j.p) / Real.sqrt radicand_inverse_j
  value_i + value_j + riemann_data_j.u - riemann_data_i.u

/-- The left extreme one-sided wave speed; `RiemannSolver::lambda1_minus`.
The constant `gamma_inverse` is `1/γ`. -/
def lambda1_minus (γ : ℝ) (riemann_data : Primitive) (p_star : ℝ) : ℝ :=
  let inv_p := riemann_data.p⁻¹
  let factor := (γ + 1) * (1 / 2) * γ⁻¹
  let tmp := positive_part ((p_star - riemann_data.p) * inv_p)
  riemann_data.u - riemann_data.a * Real.sqrt (1 + factor * tmp)

/-- The right extreme one-sided wave speed; `RiemannSolver::lambda3_plus`. -/
def lambda3_plus (γ : ℝ) (primitive_state : Primitive) (p_star : ℝ) : ℝ :=
  let inv_p := primitive_state.p⁻¹
  let factor := (γ + 1) * (1 / 2) * γ⁻¹
  let tmp := positive_part ((p_star - primitive_state.p) * inv_p)
  primitive_state.u + primitive_state.a * Real.sqrt (1 + factor * tmp)

/-- Upper bound for lambda computed from a pressure guess;
`RiemannSolver::compute_lambda`. -/
def compute_lambda (γ : ℝ) (riemann_data_i riemann_data_j : Primitive)
    (p_star : ℝ) : ℝ :=
  let nu_11 := lambda1_minus γ riemann_data_i p_star
  let nu_32 := lambda3_plus γ riemann_data_j p_star
  max (positive_part nu_32) (negative_part nu_11)

/-- Two-rarefaction approximation of the star pressure;
`RiemannSolver::p_star_two_rarefaction`.  The cached constant
`gamma_minus_one_inverse` is `1/(γ-1)`; `ryujin::pow` is the real power
function. -/
def p_star_two_rarefaction (γ : ℝ) (riemann_data_i riemann_data_j : Primitive) : ℝ :=
  let inv_p_j := riemann_data_j.p⁻¹
  let factor := (γ - 1) * (1 / 2)
  let numerator := positive_part
    (riemann_data_i.a + riemann_data_j.a -
      factor * (riemann_data_j.u - riemann_data_i.u))
  let denominator := riemann_data_i.a *
      (riemann_data_i.p * inv_p_j) ^ (-factor * γ⁻¹) + riemann_data_j.a
  let exponent := 2 * γ * (γ - 1)⁻¹
  riemann_data_j.p * (numerator / denominator) ^ exponent

open Classical in
/-- The pressure `p_2` selected as the right endpoint of the bracket in
`RiemannSolver::compute`: the SIMD mask
`compare_and_apply_mask<less_than>(phi_p_max, 0, p_star_tilde,
min(p_max, p_star_tilde))`. -/
def p_2 (γ : ℝ) (riemann_data_i riemann_data_j : Primitive) : ℝ :=
  let p_max := max riemann_data_i.p riemann_data_j.p
  let p_star_tilde := p_star_two_rarefaction γ riemann_data_i riemann_data_j
  let phi_p_max := phi_of_p_max γ riemann_data_i riemann_data_j
  if phi_p_max < 0 then p_star_tilde else min p_max p_star_tilde

/-- The wave-speed estimate; `RiemannSolver::compute` for two primitive
states. -/
def compute (γ : ℝ) (riemann_data_i riemann_data_j : Primitive) : ℝ :=
  compute_lambda γ riemann_data_i riemann_data_j (p_2 γ riemann_data_i riemann_data_j)

/-- Swapping the two states of a 1-D Riemann problem while negating the
direction negates the normal velocity and keeps the thermodynamic
quantities. -/
def Primitive.reflect (s : Primitive) : Primitive :=
  ⟨s.rho, -s.u, s.p, s.a⟩

end Euler

namespace Grendel

/-- The Newton tolerance constant `newton_eps_` of
src/grendel/riemann_solver.h. -/
def newton_eps : ℝ := 1.0e-10

/-- The compile-time Newton iteration bound `newton_max_iter_` of
src/grendel/riemann_solver.h; it defaults to zero. -/
def newton_max_iter : ℕ := 0

open Classical in
/-- Modelled from the spec: the bounded Newton refinement loop inside
the grendel `RiemannSolver::compute` (the implementation file
riemann_solver.template.h of the grendel tree is not under src/).  The
unspecified refinement step and convergence test are abstract
parameters; the loop performs at most `fuel` refinement steps, stops
early once converged, and reports the number of iterations taken. -/
def newton_loop (done : ℝ → Prop) (refine : ℝ → ℝ) : ℕ → ℝ → ℝ × ℕ
  | 0, p => (p, 0)
  | n + 1, p =>
    if done p then (p, 0)
    else
      let s := newton_loop done refine n (refine p)
      (s.1, s.2 + 1)

/-- Modelled from the spec: the grendel `RiemannSolver::compute` on 1-D
Riemann data (implementation not under src/): select the bracket
endpoint `p_2` of the in-src closed-form estimator, optionally refine it
by at most `newton_max_iter_` Newton steps, and return the wave-speed
bound, the pressure guess, and the iteration count. -/
def compute (maxIter : ℕ) (done : ℝ → Prop) (refine : ℝ → ℝ)
    (γ : ℝ) (riemann_data_i riemann_data_j : Euler.Primitive) : ℝ × ℝ × ℕ :=
  let s := newton_loop done refine maxIter (Euler.p_2 γ riemann_data_i riemann_data_j)
  (Euler.compute_lambda γ riemann_data_i riemann_data_j s.1, s.1, s.2)

end Grendel

namespace ShallowWater

/-- The run-time parameters of the Paraboloid initial state together
with the gravity constant of the hyperbolic system. -/
structure ParaboloidParams where
  a : ℝ
  h0 : ℝ
  eta : ℝ
  gravity : ℝ

/-- The paraboloid bathymetry `Paraboloid::compute_bathymetry`:
`-h_0 * (1 - |point|^2 / a^2)`. -/
def compute_bathymetry (P : ParaboloidParams) {dim : ℕ} (point : Fin dim → ℝ) : ℝ :=
  -P.h0 * (1 - (∑ m, point m ^ 2) / (P.a * P.a))

/-- The 1-D branch of `Paraboloid::compute` at a point `x` and time `t`,
producing the conserved state `(h, h v_x)`.  The water depth is clamped
from below by zero before the conserved state is formed.  Modelled from
the spec: the shallow-water `expand_state` (hyperbolic_system.h, not
under src/) keeps the water-depth component unchanged, so the state
prior to expansion is returned. -/
def paraboloid_compute_1d (P : ParaboloidParams) (x t : ℝ) : Fin 2 → ℝ :=
  let z := compute_bathymetry P (fun _ : Fin 1 => x)
  let omega := Real.sqrt (2 * P.gravity * P.h0) / P.a
  let h := max (P.eta * P.h0 / (P.a * P.a) * (2 * x * Real.cos (omega * t)) - z) 0
  let v_x := -P.eta * omega * Real.sin (omega * t)
  ![h, h * v_x]

/-- The 2-D branch of `Paraboloid::compute` at a point `(x, y)` and time
`t`, producing the conserved state `(h, h v_x, h v_y)`; the water depth
is clamped from below by zero.  Modelled from the spec: `expand_state`
(not under src/) keeps the water-depth component unchanged. -/
def paraboloid_compute_2d (P : ParaboloidParams) (x y t : ℝ) : Fin 3 → ℝ :=
  let z := compute_bathymetry P ![x, y]
  let omega := Real.sqrt (2 * P.gravity * P.h0) / P.a
  let h := max (P.eta * P.h0 / (P.a * P.a) *
    (2 * x * Real.cos (omega * t) + 2 * y * Real.sin (omega * t)) - z) 0
  let v_x := -P.eta * omega * Real.sin (omega * t)
  let v_y := P.eta * omega * Real.cos (omega * t)
  ![h, h * v_x, h * v_y]

end ShallowWater

namespace LowOrder

variable {V : Type} [AddCommGroup V] [Module ℝ V]

/-- Contraction of a flux tensor with a direction vector c_ij:
`flux(U) · c`. -/
def fluxDot {dm : ℕ} (fU : Fin dm → V) (c : Fin dm → ℝ) : V :=
  ∑ m, c m • fU m

/-- Modelled from the spec: the low-order graph-viscosity update of
section 4.3 (the implementation euler_module.template.h is not under
src/): `U_i - (τ / m_i) Σ_j (flux(U_j)·c_ij - d_ij (U_j - U_i))`. -/
def lowOrderUpdate {N dm : ℕ} (f : V → Fin dm → V)
    (c : Fin N → Fin N → Fin dm → ℝ) (d : Fin N → Fin N → ℝ)
    (m : Fin N → ℝ) (τ : ℝ) (U : Fin N → V) (i : Fin N) : V :=
  U i - (τ / m i) • ∑ j, (fluxDot (f (U j)) (c i j) - d i j • (U j - U i))

/-- Modelled from the spec: the per-node CFL step-size bound
`cfl * m_i / (2 Σ_j d_ij)`, the sum running over the off-diagonal
neighbours of node i. -/
def cflBound {N : ℕ} (cfl : ℝ) (d : Fin N → Fin N → ℝ)
    (m : Fin N → ℝ) (i : Fin N) : ℝ :=
  cfl * m i / (2 * ∑ j ∈ Finset.univ.erase i, d i j)

/-- Modelled from the spec: `tau_max`, the global minimum of the
per-node CFL bounds over all nodes. -/
def tauMax {N : ℕ} (cfl : ℝ) (d : Fin (N + 1) → Fin (N + 1) → ℝ)
    (m : Fin (N + 1) → ℝ) : ℝ :=
  Finset.univ.inf' Finset.univ_nonempty (cflBound cfl d m)

/-- The bar state of edge (i,j):
`(U_i + U_j)/2 - (flux(U_j)·c_ij - flux(U_i)·c_ij) / (2 d_ij)`.  The
low-order update is a convex combination of `U_i` and the bar states of
the edges incident to i; the graph-viscosity coefficients are chosen
large enough (via the wave-speed estimator) that every bar state is
admissible. -/
def barState {N dm : ℕ} (f : V → Fin dm → V)
    (c : Fin N → Fin N → Fin dm → ℝ) (d : Fin N → Fin N → ℝ)
    (U : Fin N → V) (i j : Fin N) : V :=
  (2⁻¹ : ℝ) • (U i + U j) -
    (2 * d i j)⁻¹ • (fluxDot (f (U j)) (c i j) - fluxDot (f (U i)) (c i j))

/-! A concrete two-node graph used to probe the CFL bound: a flat flux,
zero direction vectors, unit masses, unit off-diagonal viscosities, and
the admissible set [0, 1]. -/

/-- A concrete flux function that vanishes identically. -/
def cexf : ℝ → Fin 1 → ℝ := fun _ _ => 0

/-- Concrete direction vectors c_ij, all zero (their sum over each row
vanishes, as for the finite-element partition of unity). -/
def cexc : Fin 2 → Fin 2 → Fin 1 → ℝ := fun _ _ _ => 0

/-- Concrete graph viscosities: zero on the diagonal, one off the
diagonal. -/
def cexd : Fin 2 → Fin 2 → ℝ := fun i j => if i = j then 0 else 1

/-- Concrete lumped masses, all one. -/
def cexm : Fin 2 → ℝ := fun _ => 1

/-- A concrete admissible old state: node 0 carries 0, node 1 carries
1; both lie in the admissible interval [0, 1]. -/
def cexU : Fin 2 → ℝ := fun i => if i = 0 then 0 else 1

end LowOrder

end

namespace Orchestrator

/-- The enum `IDViolationStrategy` of src/source/euler_module.h
controlling the behavior on detection of an invariant domain or CFL
violation. -/
inductive IDViolationStrategy where
  | warn
  | raise_exception
  deriving DecidableEq

/-- The diagnostic counters `n_restarts_` and `n_warnings_` of
`EulerModule`. -/
structure Counters where
  n_restarts : ℕ
  n_warnings : ℕ
  deriving DecidableEq

/-- The outcome of a single step: either a successful step carrying the
new state and the step size actually used, or a restart signal (the
`ryujin::Restart` exception), which carries no data — in particular no
retry step size. -/
inductive StepResult (σ : Type) where
  | success (newU : σ) (tau_used : ℚ)
  | restart
  deriving DecidableEq

/-- Modelled from the spec: the choice of the step size actually used by
`EulerModule::step` — the prescribed tau when it is nonzero, the
computed tau_max when the prescribed tau is zero. -/
def tauUsed (tau_max τ : ℚ) : ℚ :=
  if τ = 0 then tau_max else τ

/-- Modelled from the spec: the end-of-step sanity checks of
`EulerModule::step` — every node of the corrected state is admissible,
and the step size used does not exceed tau_max by more than the fixed
relative tolerance of 10 percent. -/
def checksPass {N : ℕ} {σ : Type} (adm : σ → Bool) (tau_max τ_used : ℚ)
    (newU : Fin N → σ) : Bool :=
  decide (∀ i, adm (newU i) = true) && decide (τ_used ≤ (1 + 1 / 10) * tau_max)

/-- Modelled from the spec: the control flow of a single step of the
orchestrator (`EulerModule::step` / `single_step`,
euler_module.template.h not under src/).  The limiter-clamped corrected
state is an abstract function of the step size used.  If both end-of-step
checks pass the step returns the new state and the step size used; on a
violation the configured strategy selects between warning (continue with
the clamped result, count a warning) and raising a restart (count a
restart exactly once, return no state). -/
def singleStep {N : ℕ} {σ : Type} (strategy : IDViolationStrategy)
    (adm : σ → Bool) (corrected : ℚ → Fin N → σ) (tau_max τ : ℚ)
    (cnt : Counters) : StepResult (Fin N → σ) × Counters :=
  let τu := tauUsed tau_max τ
  let newU := corrected τu
  if checksPass adm tau_max τu newU then
    (StepResult.success newU τu, cnt)
  else
    match strategy with
    | IDViolationStrategy.warn =>
        (StepResult.success newU τu, ⟨cnt.n_restarts, cnt.n_warnings + 1⟩)
    | IDViolationStrategy.raise_exception =>
        (StepResult.restart, ⟨cnt.n_restarts + 1, cnt.n_warnings⟩)

end Orchestrator

/-! Helper lemmas about the positive and negative part helpers. -/

open Euler

theorem positive_part_eq_max (x : ℝ) : positive_part x = max x 0 := by
  rcases le_total x 0 with h | h
  · rw [positive_part, abs_of_nonpos h, max_eq_right h]
    ring
  · rw [positive_part, abs_of_nonneg h, max_eq_left h]
    ring

theorem negative_part_eq_max (x : ℝ) : negative_part x = max (-x) 0 := by
  rcases le_total x 0 with h | h
  · rw [negative_part, abs_of_nonpos h, max_eq_left (by linarith)]
    ring
  · rw [negative_part, abs_of_nonneg h, max_eq_right (by linarith)]
    ring

theorem positive_part_nonneg (x : ℝ) : 0 ≤ positive_part x := by
  rw [positive_part_eq_max]; exact le_max_right x 0

theorem negative_part_nonneg (x : ℝ) : 0 ≤ negative_part x := by
  rw [negative_part_eq_max]; exact le_max_right (-x) 0

theorem positive_part_of_nonpos {x : ℝ} (h : x ≤ 0) : positive_part x = 0 := by
  rw [positive_part_eq_max, max_eq_right h]

theorem positive_part_of_nonneg {x : ℝ} (h : 0 ≤ x) : positive_part x = x := by
  rw [positive_part_eq_max, max_eq_left h]

theorem positive_part_zero : positive_part 0 = 0 := by
  simp [positive_part]

theorem negative_part_neg (x : ℝ) : negative_part (-x) = positive_part x := by
  rw [negative_part, positive_part, abs_neg]
  ring

theorem positive_part_neg (x : ℝ) : positive_part (-x) = negative_part x := by
  rw [negative_part, positive_part, abs_neg]
  ring

theorem admissible_mk {r u p a : ℝ} (h1 : 0 < r) (h2 : 0 < p)
    (h3 : 0 < a) : Euler.Primitive.admissible ⟨r, u, p, a⟩ :=
  ⟨h1, h2, h3⟩

@[simp] theorem reflect_rho (s : Euler.Primitive) : s.reflect.rho = s.rho := rfl

@[simp] theorem reflect_u (s : Euler.Primitive) : s.reflect.u = -s.u := rfl

@[simp] theorem reflect_p (s : Euler.Primitive) : s.reflect.p = s.p := rfl

@[simp] theorem reflect_a (s : Euler.Primitive) : s.reflect.a = s.a := rfl

/-- C10: for every point, every time, and every parameter choice, the
water-depth component of the state returned by the shallow-water
Paraboloid initial state is non-negative: the closed-form depth is
clamped from below by zero before the conserved state is formed. -/
theorem paraboloid_water_depth_nonneg (P : ShallowWater.ParaboloidParams)
    (x y t : ℝ) :
    0 ≤ ShallowWater.paraboloid_compute_1d P x t 0
    ∧ 0 ≤ ShallowWater.paraboloid_compute_2d P x y t 0 := by
  constructor
  · show 0 ≤ ![_, _] 0
    rw [Matrix.cons_val_zero]
    exact le_max_right _ 0
  · show 0 ≤ ![_, _, _] 0
    rw [Matrix.cons_val_zero]
    exact le_max_right _ 0

/-- C9: the optional Newton refinement is bounded by the compile-time
iteration count `newton_max_iter_`, which defaults to zero; in the
default configuration the estimator performs no Newton iterations,
returns the zero-iteration closed-form bound with a reported iteration
count of zero, and for any iteration budget the loop performs at most
that many iterations. -/
theorem newton_refinement_disabled_by_default (done : ℝ → Prop)
    (refine : ℝ → ℝ) (γ : ℝ) (ri rj : Euler.Primitive) :
    Grendel.compute Grendel.newton_max_iter done refine γ ri rj
      = (Euler.compute γ ri rj, Euler.p_2 γ ri rj, 0)
    ∧ ∀ (fuel : ℕ) (p : ℝ),
        (Grendel.newton_loop done refine fuel p).2 ≤ fuel := by
  refine ⟨rfl, ?_⟩
  intro fuel
  induction fuel with
  | zero => intro p; exact le_rfl
  | succ n ih =>
      intro p
      by_cases h : done p
      · simp [Grendel.newton_loop, h]
      · simp only [Grendel.newton_loop, if_neg h]
        exact Nat.succ_le_succ (ih (refine p))

/-- C2: for every call to the orchestrator step, the step size actually
used is the computed tau_max when the prescribed tau is zero and the
prescribed tau when it is nonzero, and every successful step returns
that step size to the caller together with the new state computed with
it. -/
theorem step_tau_selection {N : ℕ} {σ : Type}
    (strategy : Orchestrator.IDViolationStrategy) (adm : σ → Bool)
    (corrected : ℚ → Fin N → σ) (tau_max τ : ℚ)
    (cnt : Orchestrator.Counters) :
    (τ = 0 → Orchestrator.tauUsed tau_max τ = tau_max)
    ∧ (τ ≠ 0 → Orchestrator.tauUsed tau_max τ = τ)
    ∧ ∀ s t cnt2,
        Orchestrator.singleStep strategy adm corrected tau_max τ cnt
          = (Orchestrator.StepResult.success s t, cnt2) →
        t = Orchestrator.tauUsed tau_max τ
          ∧ s = corrected (Orchestrator.tauUsed tau_max τ) := by
  refine ⟨fun h => by simp [Orchestrator.tauUsed, h],
    fun h => by simp [Orchestrator.tauUsed, h], ?_⟩
  intro s t cnt2 h
  simp only [Orchestrator.singleStep] at h
  split at h
  · rw [Prod.mk.injEq, Orchestrator.StepResult.success.injEq] at h
    exact ⟨h.1.2.symm, h.1.1.symm⟩
  · cases strategy with
    | warn =>
        simp only [Prod.mk.injEq, Orchestrator.StepResult.success.injEq] at h
        exact ⟨h.1.2.symm, h.1.1.symm⟩
    | raise_exception => simp at h

/-- Witness for C2: with tau_max 5 the step size used is 5 when the
prescribed tau is 0, and 3 when the prescribed tau is 3. -/
theorem step_tau_selection_witness :
    Orchestrator.tauUsed 5 0 = 5 ∧ Orchestrator.tauUsed 5 3 = 3 :=
  ⟨(step_tau_selection (N := 1) (σ := ℚ)
      Orchestrator.IDViolationStrategy.warn (fun _ => true) (fun _ _ => 0)
      5 0 ⟨0, 0⟩).1 rfl,
   (step_tau_selection (N := 1) (σ := ℚ)
      Orchestrator.IDViolationStrategy.warn (fun _ => true) (fun _ _ => 0)
      5 3 ⟨0, 0⟩).2.1 (by norm_num)⟩

/-- C3: when the end-of-step checks fail, the configured violation
strategy selects the behavior: under warn the step continues and returns
the limiter-clamped result while counting a warning; under
raise_exception the step is aborted, a restart signal carrying no retry
step size is raised, and the restart counter increments exactly once. -/
theorem violation_strategy_behavior {N : ℕ} {σ : Type} (adm : σ → Bool)
    (corrected : ℚ → Fin N → σ) (tau_max τ : ℚ)
    (cnt : Orchestrator.Counters)
    (hfail : Orchestrator.checksPass adm tau_max
        (Orchestrator.tauUsed tau_max τ)
        (corrected (Orchestrator.tauUsed tau_max τ)) = false) :
    Orchestrator.singleStep Orchestrator.IDViolationStrategy.warn
        adm corrected tau_max τ cnt
      = (Orchestrator.StepResult.success
          (corrected (Orchestrator.tauUsed tau_max τ))
          (Orchestrator.tauUsed tau_max τ),
        ⟨cnt.n_restarts, cnt.n_warnings + 1⟩)
    ∧ Orchestrator.singleStep Orchestrator.IDViolationStrategy.raise_exception
        adm corrected tau_max τ cnt
      = (Orchestrator.StepResult.restart, ⟨cnt.n_restarts + 1, cnt.n_warnings⟩)
    ∧ ∀ s t,
        (Orchestrator.singleStep Orchestrator.IDViolationStrategy.raise_exception
          adm corrected tau_max τ cnt).1
          ≠ Orchestrator.StepResult.success s t := by
  refine ⟨?_, ?_, ?_⟩
  · simp [Orchestrator.singleStep, hfail]
  · simp [Orchestrator.singleStep, hfail]
  · intro s t
    simp [Orchestrator.singleStep, hfail]

/-- Witness for C3: with tau_max 1 and a prescribed tau of 3/2 (1.5
times tau_max, beyond the 10 percent tolerance) the raise_exception
strategy aborts the step with a restart and increments the restart
counter from 0 to 1. -/
theorem violation_strategy_behavior_witness :
    Orchestrator.singleStep Orchestrator.IDViolationStrategy.raise_exception
        (fun q : ℚ => decide (0 ≤ q)) (fun _ _ => 1) 1 (3 / 2) ⟨0, 0⟩
      = (Orchestrator.StepResult.restart (σ := Fin 1 → ℚ), ⟨1, 0⟩) :=
  (violation_strategy_behavior (fun q : ℚ => decide (0 ≤ q)) (fun _ _ => 1)
    1 (3 / 2) ⟨0, 0⟩
    (by norm_num [Orchestrator.checksPass, Orchestrator.tauUsed])).2.1

/-- C4: the sign of the auxiliary function phi at p_max selects the
right endpoint of the pressure bracket: if phi(p_max) is negative the
estimator computes lambda_max from p_star_tilde, otherwise from
min(p_max, p_star_tilde). -/
theorem riemann_bracket_selection (γ : ℝ) (ri rj : Euler.Primitive)
    (hi : ri.admissible) (hj : rj.admissible) :
    (phi_of_p_max γ ri rj < 0 →
      Euler.compute γ ri rj
        = compute_lambda γ ri rj (p_star_two_rarefaction γ ri rj))
    ∧ (0 ≤ phi_of_p_max γ ri rj →
      Euler.compute γ ri rj
        = compute_lambda γ ri rj
            (min (max ri.p rj.p) (p_star_two_rarefaction γ ri rj))) := by
  constructor
  · intro h
    simp only [Euler.compute, Euler.p_2]
    rw [if_pos h]
  · intro h
    simp only [Euler.compute, Euler.p_2]
    rw [if_neg (not_lt.mpr h)]

/-- Witness for C4: for two identical admissible states phi(p_max)
evaluates to zero, so the selected endpoint is
min(p_max, p_star_tilde). -/
theorem riemann_bracket_selection_witness :
    0 ≤ phi_of_p_max (7 / 5) ⟨1, 0, 1, 1⟩ ⟨1, 0, 1, 1⟩
    ∧ Euler.compute (7 / 5) ⟨1, 0, 1, 1⟩ ⟨1, 0, 1, 1⟩
        = compute_lambda (7 / 5) ⟨1, 0, 1, 1⟩ ⟨1, 0, 1, 1⟩
            (min (max 1 1)
              (p_star_two_rarefaction (7 / 5) ⟨1, 0, 1, 1⟩ ⟨1, 0, 1, 1⟩)) := by
  have h0 : 0 ≤ phi_of_p_max (7 / 5) ⟨1, 0, 1, 1⟩ ⟨1, 0, 1, 1⟩ := by
    simp [phi_of_p_max]
  exact ⟨h0,
    (riemann_bracket_selection (7 / 5) ⟨1, 0, 1, 1⟩ ⟨1, 0, 1, 1⟩
      (admissible_mk (by norm_num) (by norm_num) (by norm_num))
      (admissible_mk (by norm_num) (by norm_num) (by norm_num))).2 h0⟩

/-- C5: whenever the closed-form numerator
`a_i + a_j - (γ-1)/2 (u_j - u_i)` of the two-rarefaction estimate is
non-positive (the vacuum case), the positive part taken of the numerator
makes the returned estimate the zero-pressure limit 0. -/
theorem p_star_two_rarefaction_vacuum (γ : ℝ) (ri rj : Euler.Primitive)
    (hγ : 1 < γ) (hi : ri.admissible) (hj : rj.admissible)
    (hvac : ri.a + rj.a - (γ - 1) / 2 * (rj.u - ri.u) ≤ 0) :
    p_star_two_rarefaction γ ri rj = 0 := by
  have hnum : ri.a + rj.a - (γ - 1) * (1 / 2) * (rj.u - ri.u) ≤ 0 := by
    calc ri.a + rj.a - (γ - 1) * (1 / 2) * (rj.u - ri.u)
        = ri.a + rj.a - (γ - 1) / 2 * (rj.u - ri.u) := by ring
      _ ≤ 0 := hvac
  have hexp : 2 * γ * (γ - 1)⁻¹ ≠ 0 := by
    have h1 : (0 : ℝ) < γ - 1 := by linarith
    have h2 : (0 : ℝ) < 2 * γ := by linarith
    exact ne_of_gt (mul_pos h2 (inv_pos.mpr h1))
  simp only [p_star_two_rarefaction]
  rw [positive_part_of_nonpos hnum, zero_div, Real.zero_rpow hexp, mul_zero]

/-- Witness for C5: with γ = 2 and states whose velocities diverge fast
enough that the non-vacuum condition fails, the estimate is zero. -/
theorem p_star_two_rarefaction_vacuum_witness :
    p_star_two_rarefaction 2 ⟨1, 0, 1, 1⟩ ⟨1, 4, 1, 1⟩ = 0 :=
  p_star_two_rarefaction_vacuum 2 ⟨1, 0, 1, 1⟩ ⟨1, 4, 1, 1⟩ (by norm_num)
    (admissible_mk (by norm_num) (by norm_num) (by norm_num))
    (admissible_mk (by norm_num) (by norm_num) (by norm_num))
    (by norm_num)

/-- C6: for every pair of admissible primitive states and every selected
pressure estimate, the estimator result is the maximum of the positive
part of the right one-sided speed `u_j + a_j sqrt(1 + (γ+1)/(2γ)
((p_star - p_j)/p_j)^+)` and the negative part of the left one-sided
speed `u_i - a_i sqrt(1 + (γ+1)/(2γ) ((p_star - p_i)/p_i)^+)`; in
particular the estimate lambda_max is non-negative. -/
theorem compute_lambda_closed_form (γ : ℝ) (ri rj : Euler.Primitive)
    (p_star : ℝ) (hi : ri.admissible) (hj : rj.admissible) :
    compute_lambda γ ri rj p_star
      = max (positive_part (rj.u + rj.a *
              Real.sqrt (1 + (γ + 1) / (2 * γ) *
                positive_part ((p_star - rj.p) / rj.p))))
          (negative_part (ri.u - ri.a *
              Real.sqrt (1 + (γ + 1) / (2 * γ) *
                positive_part ((p_star - ri.p) / ri.p))))
    ∧ 0 ≤ Euler.compute γ ri rj := by
  constructor
  · have harg : ∀ p : ℝ,
        (γ + 1) * (1 / 2) * γ⁻¹ * positive_part ((p_star - p) * p⁻¹)
          = (γ + 1) / (2 * γ) * positive_part ((p_star - p) / p) := by
      intro p
      rw [div_eq_mul_inv (p_star - p) p]
      ring
    simp only [compute_lambda, lambda1_minus, lambda3_plus]
    rw [harg ri.p, harg rj.p]
  · show 0 ≤ max (positive_part (lambda3_plus γ rj (Euler.p_2 γ ri rj)))
      (negative_part (lambda1_minus γ ri (Euler.p_2 γ ri rj)))
    exact le_trans (positive_part_nonneg _) (le_max_left _ _)

/-- Witness for C6: the closed form and the non-negativity of the
estimate at the concrete admissible pair of unit states. -/
theorem compute_lambda_closed_form_witness :
    compute_lambda (7 / 5) ⟨1, 0, 1, 1⟩ ⟨1, 0, 1, 1⟩ 1
      = max (positive_part (0 + 1 *
              Real.sqrt (1 + (7 / 5 + 1) / (2 * (7 / 5)) *
                positive_part ((1 - 1) / 1))))
          (negative_part (0 - 1 *
              Real.sqrt (1 + (7 / 5 + 1) / (2 * (7 / 5)) *
                positive_part ((1 - 1) / 1))))
    ∧ 0 ≤ Euler.compute (7 / 5) ⟨1, 0, 1, 1⟩ ⟨1, 0, 1, 1⟩ :=
  compute_lambda_closed_form (7 / 5) ⟨1, 0, 1, 1⟩ ⟨1, 0, 1, 1⟩ 1
    (admissible_mk (by norm_num) (by norm_num) (by norm_num))
    (admissible_mk (by norm_num) (by norm_num) (by norm_num))

/-- C8: for two identical admissible input states the estimated
lambda_max equals the state's local sound-speed bound
`max((u + a)^+, (u - a)^-)` exactly (over the real-number model the
floating-point tolerance of the claim becomes exact equality). -/
theorem riemann_identical_states (γ : ℝ) (d : Euler.Primitive)
    (hd : d.admissible) :
    Euler.compute γ d d
      = max (positive_part (d.u + d.a)) (negative_part (d.u - d.a)) := by
  obtain ⟨hrho, hp, ha⟩ := hd
  have hpstar : p_star_two_rarefaction γ d d = d.p := by
    simp only [p_star_two_rarefaction]
    rw [mul_inv_cancel₀ (ne_of_gt hp), Real.one_rpow]
    have h1 : d.a + d.a - (γ - 1) * (1 / 2) * (d.u - d.u) = 2 * d.a := by
      ring
    rw [h1, positive_part_of_nonneg (by linarith)]
    have h2 : d.a * 1 + d.a = 2 * d.a := by ring
    rw [h2, div_self (by linarith), Real.one_rpow, mul_one]
  have hphi : phi_of_p_max γ d d = 0 := by
    simp only [phi_of_p_max, max_self, sub_self, zero_div]
    ring
  have hp2 : Euler.p_2 γ d d = d.p := by
    simp only [Euler.p_2, hphi, hpstar, max_self]
    rw [if_neg (lt_irrefl 0), min_self]
  show compute_lambda γ d d (Euler.p_2 γ d d)
    = max (positive_part (d.u + d.a)) (negative_part (d.u - d.a))
  rw [hp2]
  simp only [compute_lambda, lambda1_minus, lambda3_plus, sub_self,
    zero_mul, positive_part_zero, mul_zero, add_zero, Real.sqrt_one,
    mul_one]

theorem lambda1_minus_reflect (γ : ℝ) (s : Euler.Primitive) (p : ℝ) :
    lambda1_minus γ s.reflect p = -(lambda3_plus γ s p) := by
  simp only [lambda1_minus, lambda3_plus, reflect_u, reflect_p, reflect_a]
  ring

theorem lambda3_plus_reflect (γ : ℝ) (s : Euler.Primitive) (p : ℝ) :
    lambda3_plus γ s.reflect p = -(lambda1_minus γ s p) := by
  simp only [lambda1_minus, lambda3_plus, reflect_u, reflect_p, reflect_a]
  ring

theorem compute_lambda_reflect_swap (γ : ℝ) (ri rj : Euler.Primitive)
    (p : ℝ) :
    compute_lambda γ rj.reflect ri.reflect p = compute_lambda γ ri rj p := by
  simp only [compute_lambda, lambda1_minus_reflect, lambda3_plus_reflect,
    positive_part_neg, negative_part_neg]
  exact max_comm _ _

theorem phi_of_p_max_reflect_swap (γ : ℝ) (ri rj : Euler.Primitive) :
    phi_of_p_max γ rj.reflect ri.reflect = phi_of_p_max γ ri rj := by
  simp only [phi_of_p_max, reflect_rho, reflect_u, reflect_p, reflect_a]
  rw [max_comm rj.p ri.p]
  ring

theorem p_star_two_rarefaction_reflect_swap (γ : ℝ)
    (ri rj : Euler.Primitive) (hγ : 1 < γ) (hpi : 0 < ri.p)
    (hpj : 0 < rj.p) (hai : 0 < ri.a) (haj : 0 < rj.a) :
    p_star_two_rarefaction γ rj.reflect ri.reflect
      = p_star_two_rarefaction γ ri rj := by
  have hγ0 : (0 : ℝ) < γ := by linarith
  have hγ1 : γ - 1 ≠ 0 := sub_ne_zero.mpr (ne_of_gt hγ)
  simp only [p_star_two_rarefaction, reflect_rho, reflect_u, reflect_p,
    reflect_a]
  have hnum : rj.a + ri.a - (γ - 1) * (1 / 2) * (-ri.u - -rj.u)
      = ri.a + rj.a - (γ - 1) * (1 / 2) * (rj.u - ri.u) := by ring
  rw [hnum]
  set N := positive_part (ri.a + rj.a - (γ - 1) * (1 / 2) * (rj.u - ri.u))
    with hN
  set β := (γ - 1) * (1 / 2) * γ⁻¹ with hβ
  set E := 2 * γ * (γ - 1)⁻¹ with hE
  have hexp : -((γ - 1) * (1 / 2)) * γ⁻¹ = -β := by rw [hβ]; ring
  rw [hexp]
  set r := ri.p * rj.p⁻¹ with hr
  have hr0 : 0 < r := mul_pos hpi (inv_pos.mpr hpj)
  have hrinv : rj.p * ri.p⁻¹ = r⁻¹ := by
    rw [hr, mul_inv, inv_inv, mul_comm]
  rw [hrinv]
  have hβE : β * E = 1 := by
    rw [hβ, hE]
    field_simp
  have hNnn : 0 ≤ N := positive_part_nonneg _
  have hrb : r⁻¹ ^ (-β) = r ^ β := by
    rw [Real.inv_rpow hr0.le, Real.rpow_neg hr0.le, inv_inv]
  rw [hrb]
  set D := ri.a * r ^ (-β) + rj.a with hD
  have hDpos : 0 < D :=
    add_pos (mul_pos hai (Real.rpow_pos_of_pos hr0 _)) haj
  have hfold : rj.a * r ^ β + ri.a = r ^ β * D := by
    have hcancel : r ^ β * r ^ (-β) = 1 := by
      rw [← Real.rpow_add hr0]
      simp
    calc rj.a * r ^ β + ri.a
        = ri.a * (r ^ β * r ^ (-β)) + rj.a * r ^ β := by rw [hcancel]; ring
      _ = r ^ β * (ri.a * r ^ (-β) + rj.a) := by ring
      _ = r ^ β * D := by rw [hD]
  rw [hfold]
  have hsplit : N / (r ^ β * D) = N / D * r ^ (-β) := by
    rw [mul_comm (r ^ β) D, ← div_div, div_eq_mul_inv (N / D),
      ← Real.rpow_neg hr0.le]
  rw [hsplit]
  have hmulpow : (N / D * r ^ (-β)) ^ E = (N / D) ^ E * (r ^ (-β)) ^ E :=
    Real.mul_rpow (div_nonneg hNnn hDpos.le)
      (Real.rpow_pos_of_pos hr0 _).le
  rw [hmulpow]
  have hpowpow : (r ^ (-β)) ^ E = r ^ (-1 : ℝ) := by
    rw [← Real.rpow_mul hr0.le]
    congr 1
    rw [neg_mul, hβE]
  rw [hpowpow, Real.rpow_neg_one, hr, mul_inv, inv_inv]
  have hpi2 : ri.p ≠ 0 := ne_of_gt hpi
  field_simp
  ring

/-- C7: the estimated lambda_max is invariant under simultaneously
negating the direction and swapping the two states: over the 1-D Riemann
data, swapping the two primitive tuples while negating both normal
velocities leaves the estimate unchanged. -/
theorem lambda_max_swap_invariant (γ : ℝ) (ri rj : Euler.Primitive)
    (hγ : 1 < γ) (hi : ri.admissible) (hj : rj.admissible) :
    Euler.compute γ rj.reflect ri.reflect = Euler.compute γ ri rj := by
  obtain ⟨hri, hpi, hai⟩ := hi
  obtain ⟨hrj, hpj, haj⟩ := hj
  simp only [Euler.compute, Euler.p_2, reflect_p]
  rw [phi_of_p_max_reflect_swap,
    p_star_two_rarefaction_reflect_swap γ ri rj hγ hpi hpj hai haj,
    max_comm rj.p ri.p, compute_lambda_reflect_swap]

/-- Witness for C7: the swap invariance at a concrete admissible pair of
states with γ = 2. -/
theorem lambda_max_swap_invariant_witness :
    Euler.compute 2 (Euler.Primitive.reflect ⟨1, 1, 1, 1⟩)
        (Euler.Primitive.reflect ⟨1, 0, 1, 1⟩)
      = Euler.compute 2 ⟨1, 0, 1, 1⟩ ⟨1, 1, 1, 1⟩ :=
  lambda_max_swap_invariant 2 ⟨1, 0, 1, 1⟩ ⟨1, 1, 1, 1⟩ (by norm_num)
    (admissible_mk (by norm_num) (by norm_num) (by norm_num))
    (admissible_mk (by norm_num) (by norm_num) (by norm_num))

/-- Witness for C8: at the unit state with zero velocity the estimate is
the sound-speed bound. -/
theorem riemann_identical_states_witness :
    Euler.compute (7 / 5) ⟨1, 0, 1, 1⟩ ⟨1, 0, 1, 1⟩
      = max (positive_part (0 + 1)) (negative_part (0 - 1)) :=
  riemann_identical_states (7 / 5) ⟨1, 0, 1, 1⟩
    (admissible_mk (by norm_num) (by norm_num) (by norm_num))

theorem low_order_node_admissible {V : Type} [AddCommGroup V] [Module ℝ V]
    {N dm : ℕ} (A : Set V) (f : V → Fin dm → V)
    (c : Fin N → Fin N → Fin dm → ℝ) (d : Fin N → Fin N → ℝ)
    (m : Fin N → ℝ) (cfl τ : ℝ) (U : Fin N → V)
    (hA : Convex ℝ A) (hU : ∀ i, U i ∈ A) (hm : ∀ i, 0 < m i)
    (hd : ∀ i j, j ≠ i → 0 ≤ d i j)
    (hc : ∀ i mu, ∑ j, c i j mu = 0)
    (hdc : ∀ i j, j ≠ i → d i j = 0 → c i j = 0)
    (hbar : ∀ i j, j ≠ i → 0 < d i j → LowOrder.barState f c d U i j ∈ A)
    (hcfl1 : cfl ≤ 1) (hτ : 0 ≤ τ) (i : Fin N)
    (hτb : τ ≤ LowOrder.cflBound cfl d m i) :
    LowOrder.lowOrderUpdate f c d m τ U i ∈ A := by
  classical
  simp only [LowOrder.cflBound] at hτb
  set S := ∑ j ∈ Finset.univ.erase i, d i j with hS
  have hS0 : 0 ≤ S := by
    rw [hS]
    exact Finset.sum_nonneg fun j hj => hd i j (Finset.ne_of_mem_erase hj)
  set z : Fin N → V := fun j =>
    if j = i then U i
    else if 0 < d i j then LowOrder.barState f c d U i j else U i with hz
  set w : Fin N → ℝ := fun j =>
    if j = i then 1 - τ / m i * (2 * S) else τ / m i * (2 * d i j) with hw
  have hzi : z i = U i := by simp [hz]
  have hwi : w i = 1 - τ / m i * (2 * S) := by simp [hw]
  have hze : ∀ j, j ≠ i →
      z j = if 0 < d i j then LowOrder.barState f c d U i j else U i := by
    intro j hj; simp [hz, hj]
  have hwe : ∀ j, j ≠ i → w j = τ / m i * (2 * d i j) := by
    intro j hj; simp [hw, hj]
  have hflux0 : ∑ j, LowOrder.fluxDot (f (U i)) (c i j) = 0 := by
    simp only [LowOrder.fluxDot]
    rw [Finset.sum_comm]
    refine Finset.sum_eq_zero fun mu _ => ?_
    rw [← Finset.sum_smul, hc i mu, zero_smul]
  have hedge : ∀ j ∈ Finset.univ.erase i,
      LowOrder.fluxDot (f (U j)) (c i j) - LowOrder.fluxDot (f (U i)) (c i j)
        - d i j • (U j - U i) = (2 * d i j) • (U i - z j) := by
    intro j hj
    have hji : j ≠ i := Finset.ne_of_mem_erase hj
    by_cases hdij : 0 < d i j
    · rw [hze j hji, if_pos hdij, LowOrder.barState]
      have h2d : (2 * d i j) ≠ 0 := ne_of_gt (by linarith)
      simp only [smul_sub, smul_add, smul_smul, mul_inv_cancel₀ h2d, one_smul]
      have h22 : 2 * d i j * 2⁻¹ = d i j := by ring
      rw [h22, show (2 : ℝ) * d i j = d i j + d i j from by ring, add_smul]
      abel
    · have hd0 : d i j = 0 := le_antisymm (not_lt.mp hdij) (hd i j hji)
      have hc0 : c i j = 0 := hdc i j hji hd0
      rw [hze j hji, if_neg hdij, hd0, hc0]
      simp [LowOrder.fluxDot]
  have hsumA : ∑ j, (LowOrder.fluxDot (f (U j)) (c i j) - d i j • (U j - U i))
      = ∑ j, (LowOrder.fluxDot (f (U j)) (c i j)
          - LowOrder.fluxDot (f (U i)) (c i j) - d i j • (U j - U i)) := by
    rw [eq_comm]
    calc ∑ j, (LowOrder.fluxDot (f (U j)) (c i j)
            - LowOrder.fluxDot (f (U i)) (c i j) - d i j • (U j - U i))
        = ∑ j, ((LowOrder.fluxDot (f (U j)) (c i j) - d i j • (U j - U i))
            - LowOrder.fluxDot (f (U i)) (c i j)) :=
          Finset.sum_congr rfl fun j _ => by abel
      _ = ∑ j, (LowOrder.fluxDot (f (U j)) (c i j) - d i j • (U j - U i))
            - ∑ j, LowOrder.fluxDot (f (U i)) (c i j) :=
          Finset.sum_sub_distrib
      _ = ∑ j, (LowOrder.fluxDot (f (U j)) (c i j) - d i j • (U j - U i)) := by
          rw [hflux0, sub_zero]
  have hsumB : ∑ j, (LowOrder.fluxDot (f (U j)) (c i j)
          - LowOrder.fluxDot (f (U i)) (c i j) - d i j • (U j - U i))
      = ∑ j ∈ Finset.univ.erase i, (2 * d i j) • (U i - z j) := by
    rw [← Finset.add_sum_erase Finset.univ _ (Finset.mem_univ i)]
    have hFi : LowOrder.fluxDot (f (U i)) (c i i)
        - LowOrder.fluxDot (f (U i)) (c i i) - d i i • (U i - U i) = 0 := by
      simp
    rw [hFi, zero_add]
    exact Finset.sum_congr rfl hedge
  have hsero : ∑ j ∈ Finset.univ.erase i, w j = τ / m i * (2 * S) := by
    have h1 : ∀ j ∈ Finset.univ.erase i, w j = τ / m i * (2 * d i j) :=
      fun j hj => hwe j (Finset.ne_of_mem_erase hj)
    rw [Finset.sum_congr rfl h1, hS]
    simp only [Finset.mul_sum]
  have hq : τ / m i * (2 * S) ≤ 1 := by
    rcases eq_or_lt_of_le hS0 with hS1 | hS1
    · rw [← hS1]
      norm_num
    · have hmulb : cfl * m i ≤ m i := by
        calc cfl * m i ≤ 1 * m i := mul_le_mul_of_nonneg_right hcfl1 (hm i).le
          _ = m i := one_mul _
      have h2S : (0 : ℝ) < 2 * S := by linarith
      have h1 : cfl * m i / (2 * S) ≤ m i / (2 * S) :=
        (div_le_div_iff_of_pos_right h2S).mpr hmulb
      have h2 : τ ≤ m i / (2 * S) := le_trans hτb h1
      have h3 : τ * (2 * S) ≤ m i := (le_div_iff₀ h2S).mp h2
      calc τ / m i * (2 * S) = τ * (2 * S) / m i := by ring
        _ ≤ 1 := (div_le_one (hm i)).mpr h3
  have hwnn : ∀ j ∈ Finset.univ, 0 ≤ w j := by
    intro j _
    by_cases hj : j = i
    · rw [hj, hwi]
      linarith
    · rw [hwe j hj]
      have h0 : 0 ≤ d i j := hd i j hj
      have h1 : 0 ≤ τ / m i := div_nonneg hτ (hm i).le
      have h2 : (0 : ℝ) ≤ 2 * d i j := by linarith
      exact mul_nonneg h1 h2
  have hwsum : ∑ j, w j = (1 : ℝ) := by
    rw [← Finset.add_sum_erase Finset.univ w (Finset.mem_univ i), hsero, hwi]
    ring
  have hzA : ∀ j ∈ Finset.univ, z j ∈ A := by
    intro j _
    by_cases hj : j = i
    · rw [hj, hzi]
      exact hU i
    · rw [hze j hj]
      by_cases hdij : 0 < d i j
      · rw [if_pos hdij]
        exact hbar i j hj hdij
      · rw [if_neg hdij]
        exact hU i
  have hupdate : LowOrder.lowOrderUpdate f c d m τ U i = ∑ j, w j • z j := by
    simp only [LowOrder.lowOrderUpdate]
    rw [hsumA, hsumB, Finset.smul_sum]
    have hterm : ∀ j ∈ Finset.univ.erase i,
        (τ / m i) • ((2 * d i j) • (U i - z j)) = w j • U i - w j • z j := by
      intro j hj
      rw [smul_smul, ← hwe j (Finset.ne_of_mem_erase hj), smul_sub]
    rw [Finset.sum_congr rfl hterm, Finset.sum_sub_distrib,
      ← Finset.sum_smul, hsero]
    have hsplit2 : ∑ j, w j • z j
        = w i • z i + ∑ j ∈ Finset.univ.erase i, w j • z j :=
      (Finset.add_sum_erase Finset.univ (fun j => w j • z j)
        (Finset.mem_univ i)).symm
    rw [hsplit2, hzi, hwi, sub_smul, one_smul]
    abel
  rw [hupdate]
  exact hA.sum_mem hwnn hwsum hzA

/-- C1 (amended): over every graph whose viscosities satisfy the
defining graph-viscosity property (every bar state admissible) and every
admissible old state, provided additionally the CFL number is at most 1,
the low-order update of every node is admissible whenever tau is at most
the computed tau_max; tau_max is the global minimum over all nodes of
the per-node bound `cfl * m_i / (2 sum_j d_ij)` and is attained at some
node. -/
theorem low_order_update_admissible {V : Type} [AddCommGroup V]
    [Module ℝ V] {N dm : ℕ} (A : Set V) (f : V → Fin dm → V)
    (c : Fin (N + 1) → Fin (N + 1) → Fin dm → ℝ)
    (d : Fin (N + 1) → Fin (N + 1) → ℝ) (m : Fin (N + 1) → ℝ)
    (cfl τ : ℝ) (U : Fin (N + 1) → V)
    (hA : Convex ℝ A) (hU : ∀ i, U i ∈ A) (hm : ∀ i, 0 < m i)
    (hd : ∀ i j, j ≠ i → 0 ≤ d i j)
    (hc : ∀ i mu, ∑ j, c i j mu = 0)
    (hdc : ∀ i j, j ≠ i → d i j = 0 → c i j = 0)
    (hbar : ∀ i j, j ≠ i → 0 < d i j → LowOrder.barState f c d U i j ∈ A)
    (hcfl1 : cfl ≤ 1) (hτ : 0 ≤ τ)
    (hτmax : τ ≤ LowOrder.tauMax cfl d m) :
    (∀ i, LowOrder.tauMax cfl d m ≤ LowOrder.cflBound cfl d m i)
    ∧ (∃ i, LowOrder.tauMax cfl d m = LowOrder.cflBound cfl d m i)
    ∧ ∀ i, LowOrder.lowOrderUpdate f c d m τ U i ∈ A := by
  refine ⟨fun i => Finset.inf'_le _ (Finset.mem_univ i), ?_, ?_⟩
  · obtain ⟨i, _, hi⟩ := Finset.exists_mem_eq_inf' Finset.univ_nonempty
      (LowOrder.cflBound cfl d m)
    exact ⟨i, hi⟩
  · intro i
    exact low_order_node_admissible A f c d m cfl τ U hA hU hm hd hc hdc
      hbar hcfl1 hτ i
      (le_trans hτmax (Finset.inf'_le _ (Finset.mem_univ i)))

/-- Witness for C1: on the concrete two-node graph with unit
off-diagonal viscosities, unit masses, CFL number 1 and tau = 1/2 (which
equals the computed tau_max), the low-order update of both nodes stays
in the admissible interval [0, 1]. -/
theorem low_order_update_admissible_witness :
    (∀ i, LowOrder.tauMax 1 LowOrder.cexd LowOrder.cexm
        ≤ LowOrder.cflBound 1 LowOrder.cexd LowOrder.cexm i)
    ∧ (∃ i, LowOrder.tauMax 1 LowOrder.cexd LowOrder.cexm
        = LowOrder.cflBound 1 LowOrder.cexd LowOrder.cexm i)
    ∧ ∀ i, LowOrder.lowOrderUpdate LowOrder.cexf LowOrder.cexc LowOrder.cexd
        LowOrder.cexm (1 / 2) LowOrder.cexU i ∈ Set.Icc (0 : ℝ) 1 :=
  low_order_update_admissible (Set.Icc 0 1) LowOrder.cexf LowOrder.cexc
    LowOrder.cexd LowOrder.cexm 1 (1 / 2) LowOrder.cexU
    (convex_Icc 0 1)
    (by intro i; fin_cases i <;> simp [LowOrder.cexU, Set.mem_Icc])
    (by intro i; norm_num [LowOrder.cexm])
    (by intro i j hj; simp only [LowOrder.cexd]; split <;> norm_num)
    (by intro i mu; simp [LowOrder.cexc])
    (by intro i j hj hd0; funext mu; simp [LowOrder.cexc])
    (by
      intro i j hj hdij
      fin_cases i <;> fin_cases j <;>
        simp_all [LowOrder.barState, LowOrder.fluxDot, LowOrder.cexf,
          LowOrder.cexc, LowOrder.cexd, LowOrder.cexU, Set.mem_Icc,
          smul_eq_mul] <;>
        norm_num)
    le_rfl
    (by norm_num)
    (by
      refine Finset.le_inf' Finset.univ_nonempty _ fun i hi => ?_
      fin_cases i <;>
        · simp only [LowOrder.cflBound]
          rw [Finset.sum_erase_eq_sub (Finset.mem_univ _), Fin.sum_univ_two]
          norm_num [LowOrder.cexd, LowOrder.cexm])

/-- Counterexample to C1 as stated: with a CFL number of 4 (the claim
does not restrict the CFL number) the same two-node graph satisfies
every structural premise, the step size tau = 2 satisfies the per-node
bound `tau <= cfl * m_i / (2 sum_j d_ij)` at every node and also
`tau <= tau_max`, yet the low-order update of node 0 equals 2 and leaves
the admissible interval [0, 1]. -/
theorem low_order_cfl_gt_one_counterexample :
    Convex ℝ (Set.Icc (0 : ℝ) 1)
    ∧ (∀ i, LowOrder.cexU i ∈ Set.Icc (0 : ℝ) 1)
    ∧ (∀ i, 0 < LowOrder.cexm i)
    ∧ (∀ i j, j ≠ i → 0 ≤ LowOrder.cexd i j)
    ∧ (∀ i mu, ∑ j, LowOrder.cexc i j mu = 0)
    ∧ (∀ i j, j ≠ i → LowOrder.cexd i j = 0 → LowOrder.cexc i j = 0)
    ∧ (∀ i j, j ≠ i → 0 < LowOrder.cexd i j →
        LowOrder.barState LowOrder.cexf LowOrder.cexc LowOrder.cexd
          LowOrder.cexU i j ∈ Set.Icc (0 : ℝ) 1)
    ∧ (0 : ℝ) < 4 ∧ (0 : ℝ) ≤ 2
    ∧ (∀ i, (2 : ℝ) ≤ LowOrder.cflBound 4 LowOrder.cexd LowOrder.cexm i)
    ∧ (2 : ℝ) ≤ LowOrder.tauMax 4 LowOrder.cexd LowOrder.cexm
    ∧ LowOrder.lowOrderUpdate LowOrder.cexf LowOrder.cexc LowOrder.cexd
        LowOrder.cexm 2 LowOrder.cexU 0 ∉ Set.Icc (0 : ℝ) 1 := by
  have hbnd : ∀ i, LowOrder.cflBound 4 LowOrder.cexd LowOrder.cexm i
      = (2 : ℝ) := by
    intro i
    fin_cases i <;>
      · simp only [LowOrder.cflBound]
        rw [Finset.sum_erase_eq_sub (Finset.mem_univ _), Fin.sum_univ_two]
        norm_num [LowOrder.cexd, LowOrder.cexm]
  refine ⟨convex_Icc 0 1, ?_, ?_, ?_, ?_, ?_, ?_, by norm_num, by norm_num,
    ?_, ?_, ?_⟩
  · intro i; fin_cases i <;> simp [LowOrder.cexU, Set.mem_Icc]
  · intro i; norm_num [LowOrder.cexm]
  · intro i j hj; simp only [LowOrder.cexd]; split <;> norm_num
  · intro i mu; simp [LowOrder.cexc]
  · intro i j hj hd0; funext mu; simp [LowOrder.cexc]
  · intro i j hj hdij
    fin_cases i <;> fin_cases j <;>
      simp_all [LowOrder.barState, LowOrder.fluxDot, LowOrder.cexf,
        LowOrder.cexc, LowOrder.cexd, LowOrder.cexU, Set.mem_Icc,
        smul_eq_mul] <;>
      norm_num
  · intro i
    rw [hbnd i]
  · refine Finset.le_inf' Finset.univ_nonempty _ fun i hi => ?_
    rw [hbnd i]
  · simp only [LowOrder.lowOrderUpdate, LowOrder.fluxDot, Fin.sum_univ_two,
      Fin.sum_univ_one, LowOrder.cexf, LowOrder.cexc, LowOrder.cexd,
      LowOrder.cexm, LowOrder.cexU, smul_eq_mul]
    norm_num [Set.mem_Icc]

end Ryujin
